import Mathlib

/-!
Shallow embedding of the lexer and parser of `src/lang.cpp` (a small
Kaleidoscope-style language front end), together with theorems checking the
natural-language specification against it.

Modelling conventions:
- characters read by `getchar()` are modelled as `Option Char` values pulled
  from a `List Char` input; `none` stands for the `EOF` sentinel;
- `std::string` values are modelled as `List Char`;
- `double` values produced by `strtod` are modelled as `Rat` (the inputs in
  the claims are small integers, where the conversion is exact);
- the globals `IdentifierStr`, `LastChar` live in `LexState`; the globals
  `CurTok` and `BinopPrecedence` live in `ParserState`; `NumVal` and the
  identifier text are carried on the token that sets them, as the parser
  reads each of them only directly after the corresponding token arrives;
- C error logging (`LogError`, returning `nullptr`) is modelled as
  `Except.error` carrying the logged message;
- loops and recursion are modelled either structurally or with an explicit
  fuel parameter that callers instantiate with a sufficient bound.
-/

/-- C `isspace` in the C locale, on a character. -/
def isspaceC (c : Char) : Bool :=
  c = ' ' ∨ c = '\t' ∨ c = '\n' ∨ c = '\x0b' ∨ c = '\x0c' ∨ c = '\r'

/-- C `isdigit` in the C locale. -/
def isdigitC (c : Char) : Bool :=
  '0' ≤ c ∧ c ≤ '9'

/-- C `isalpha` in the C locale. -/
def isalphaC (c : Char) : Bool :=
  ('a' ≤ c ∧ c ≤ 'z') ∨ ('A' ≤ c ∧ c ≤ 'Z')

/-- C `isalnum` in the C locale. -/
def isalnumC (c : Char) : Bool :=
  isalphaC c ∨ isdigitC c

/-- The character class scanned by the number rule of `gettok`:
`isdigit(LastChar) || LastChar == '.'`. -/
def isNumChar (c : Char) : Bool :=
  isdigitC c ∨ c = '.'

/-- `Option` lift of a character predicate; the `EOF` sentinel (`none`)
satisfies no character class. -/
def optIs (p : Char → Bool) : Option Char → Bool
  | none => false
  | some c => p c

/-- Numeric value of a list of decimal digit characters, most significant
first. -/
def natOfDigits : List Char → Nat
  | [] => 0
  | c :: cs => (c.toNat - '0'.toNat) * 10 ^ cs.length + natOfDigits cs

/-- `strtod` on the strings produced by the number rule of `gettok` (digits
and dots only): it converts the longest valid prefix, i.e. an integer part
followed by at most one dot and a fraction part, and yields `0` when no
conversion is possible (e.g. on `"."`). Exponents and signs cannot occur in
the scanned strings, so they are not modelled. -/
def strtodM (s : List Char) : Rat :=
  let intPart := s.takeWhile isdigitC
  let rest := s.drop intPart.length
  match rest with
  | '.' :: rest2 =>
      let frac := rest2.takeWhile isdigitC
      mkRat (natOfDigits intPart * 10 ^ frac.length + natOfDigits frac) (10 ^ frac.length)
  | _ => (natOfDigits intPart : Rat)

/-- Tokens returned by `gettok`: the `Token` enum of the source, where
`tok_identifier` carries the `IdentifierStr` text it set and `tok_number`
carries the `NumVal` value it set; `op c` is the fall-through return of the
raw character `c` for any other lexeme. -/
inductive Tok where
  | eof
  | defKw
  | externKw
  | identifier (s : List Char)
  | number (v : Rat)
  | op (c : Char)
deriving DecidableEq, Repr

/-- Lexer state: the carry-over `LastChar` (with `none` for `EOF`), the
remaining input characters, and the global `IdentifierStr` accumulator. -/
structure LexState where
  lastChar : Option Char
  input : List Char
  identifierStr : List Char
deriving DecidableEq, Repr

/-- The whitespace-skipping loop at the top of `gettok`:
`while (isspace(LastChar)) LastChar = getchar();`. Returns the new
`LastChar` and remaining input. -/
def skipWS : Option Char → List Char → Option Char × List Char
  | lc, inp =>
    if optIs isspaceC lc then
      match inp with
      | [] => (none, [])
      | c :: cs => skipWS (some c) cs
    else (lc, inp)

/-- The identifier loop of `gettok`:
`while (isalnum(LastChar = getchar())) IdentifierStr += LastChar;`.
Note that the source never clears `IdentifierStr` and never appends the
character that triggered the branch, so the accumulator starts from the
incoming `IdentifierStr` value and collects only the subsequent characters.
Returns the new accumulator, `LastChar` and remaining input. -/
def scanId : List Char → List Char → List Char × Option Char × List Char
  | inp, ids =>
    match inp with
    | [] => (ids, none, [])
    | c :: cs =>
      if isalnumC c then scanId cs (ids ++ [c])
      else (ids, some c, cs)

/-- The number loop of `gettok`:
`do { NumStr += LastChar; LastChar = getchar(); } while (isdigit(LastChar) || LastChar == '.');`.
`c` is the current `LastChar` (already known to be a digit or a dot at the
only call site). Returns `NumStr`, the new `LastChar` and remaining input. -/
def scanNum : List Char → Char → List Char → List Char × Option Char × List Char
  | acc, c, inp =>
    match inp with
    | [] => (acc ++ [c], none, [])
    | d :: ds =>
      if isNumChar d then scanNum (acc ++ [c]) d ds
      else (acc ++ [c], some d, ds)

/-- The comment loop of `gettok`:
`do LastChar = getchar(); while (LastChar != EOF && LastChar != '\n' && LastChar != '\r');`.
Returns the new `LastChar` and remaining input. -/
def skipComment : List Char → Option Char × List Char
  | [] => (none, [])
  | c :: cs =>
    if c = '\n' ∨ c = '\r' then (some c, cs)
    else skipComment cs

/-- One classification pass of `gettok`, with the recursive call after a
newline-terminated comment abstracted as `rec`. The branch order follows the
source; the `EOF` test is folded into the `none` case of the skipped
whitespace because `EOF` satisfies none of the earlier character classes. -/
def gettokStep (rec : LexState → Tok × LexState) (st : LexState) : Tok × LexState :=
  match skipWS st.lastChar st.input with
  | (none, inp) => (Tok.eof, ⟨none, inp, st.identifierStr⟩)
  | (some c, inp) =>
    if isalphaC c then
      match scanId inp st.identifierStr with
      | (ids, lc2, inp2) =>
        if ids = "def".toList then (Tok.defKw, ⟨lc2, inp2, ids⟩)
        else if ids = "extern".toList then (Tok.externKw, ⟨lc2, inp2, ids⟩)
        else (Tok.identifier ids, ⟨lc2, inp2, ids⟩)
    else if isNumChar c then
      match scanNum [] c inp with
      | (numStr, lc2, inp2) => (Tok.number (strtodM numStr), ⟨lc2, inp2, st.identifierStr⟩)
    else if c = '#' then
      match skipComment inp with
      | (some c2, inp2) => rec ⟨some c2, inp2, st.identifierStr⟩
      | (none, inp2) => (Tok.eof, ⟨none, inp2, st.identifierStr⟩)
    else
      match inp with
      | [] => (Tok.op c, ⟨none, [], st.identifierStr⟩)
      | d :: ds => (Tok.op c, ⟨some d, ds, st.identifierStr⟩)

/-- Fueled `gettok`; the fuel only bounds the number of comment-triggered
reclassifications, each of which consumes at least one input character, so
`input.length + 1` fuel always suffices (see `gettokF_fuel_irrelevant`). -/
def gettokF : Nat → LexState → Tok × LexState
  | 0, st => (Tok.eof, st)
  | fuel + 1, st => gettokStep (gettokF fuel) st

/-- `gettok` of the source: return the next token and the updated lexer
state. -/
def gettok (st : LexState) : Tok × LexState :=
  gettokF (st.input.length + 1) st

/-- Run the lexer repeatedly (as a driver would) until it reports
end-of-input, collecting the token sequence including the final `eof`.
The fuel bounds the number of tokens. -/
def tokenizeF : Nat → LexState → List Tok
  | 0, _ => []
  | fuel + 1, st =>
    match gettok st with
    | (Tok.eof, _) => [Tok.eof]
    | (t, st2) => t :: tokenizeF fuel st2

/-- Token sequence of a whole input, starting from the initial lexer state
of the source (`LastChar = ' '`, empty `IdentifierStr`). One token consumes
at least one unit of input, so `length + 1` fuel suffices. -/
def tokenize (cs : List Char) : List Tok :=
  tokenizeF (cs.length + 1) ⟨some ' ', cs, []⟩

/-- AST expression nodes of the source (`NumberExprAST`, `VariableExprAST`,
`BinaryExprAST`, `CallExprAST`); child ownership becomes plain structural
containment. -/
inductive Expr where
  | number (v : Rat)
  | var (name : List Char)
  | binary (op : Char) (lhs rhs : Expr)
  | call (callee : List Char) (args : List Expr)
deriving Repr

/-- Structural size of an expression tree (used to show that an iteration of
the binary-operator loop strictly grows the left-hand side). -/
def Expr.size : Expr → Nat
  | .number _ => 1
  | .var _ => 1
  | .binary _ l r => 1 + l.size + r.size
  | .call _ args => 1 + sizeList args
where sizeList : List Expr → Nat
  | [] => 0
  | e :: es => e.size + sizeList es

/-- The `BinopPrecedence` map, `std::map<char, int>`, as an association
list; the traversal order of the C++ map is irrelevant here because only
lookups observe it. -/
abbrev PrecMap := List (Char × Int)

/-- `std::map::operator[]`: return the mapped value of `k`, inserting a
value-initialized (`0`) entry first when `k` is absent. Returns the value
and the (possibly extended) map. -/
def mapIndex (m : PrecMap) (k : Char) : Int × PrecMap :=
  match List.lookup k m with
  | some v => (v, m)
  | none => (0, m ++ [(k, 0)])

/-- The contents `main` installs in `BinopPrecedence` before parsing. -/
def BinopPrecedenceInit : PrecMap :=
  [('<', 10), ('+', 20), ('-', 30), ('*', 40)]

/-- Parser state: the one-token lookahead `CurTok`, the stream of tokens the
lexer will hand out next, and the global `BinopPrecedence` map (threaded
because `GetTokPrecedence` can mutate it through `operator[]`). -/
structure ParserState where
  cur : Tok
  rest : List Tok
  prec : PrecMap
deriving Repr

/-- `getNextToken`: advance `CurTok` to the next lexer token. A drained
stream keeps yielding `eof`, exactly as the real lexer does once `LastChar`
is `EOF`. -/
def getNextToken (st : ParserState) : ParserState :=
  ⟨st.rest.headD Tok.eof, st.rest.tail, st.prec⟩

/-- The `int` value of `CurTok` is an ASCII character exactly when the token
is a raw character of code at most 127; the named tokens are the negative
enum values, which `isascii` rejects. -/
def tokIsAscii : Tok → Bool
  | Tok.op c => c.toNat ≤ 127
  | _ => false

/-- The raw character of `CurTok`, as the `int` to `char` narrowing used by
`BinopPrecedence[CurTok]` and `BinaryExprAST(BinOp, ...)`. Non-character
tokens never reach these uses (the precedence guard filters them), so their
image is immaterial; `\x00` is used. -/
def tokChar : Tok → Char
  | Tok.op c => c
  | _ => '\x00'

/-- `GetTokPrecedence`: `-1` unless `CurTok` is an ASCII character whose
`BinopPrecedence` entry is positive; the `operator[]` lookup may insert a
`0` entry into the map, so the updated state is returned as well. -/
def GetTokPrecedence (st : ParserState) : Int × ParserState :=
  if tokIsAscii st.cur then
    let r := mapIndex st.prec (tokChar st.cur)
    if r.1 ≤ 0 then (-1, ⟨st.cur, st.rest, r.2⟩)
    else (r.1, ⟨st.cur, st.rest, r.2⟩)
  else (-1, st)

/-- Error message of `ParseParenExpr`, `"Expected ')'"`. -/
def errExpectedRParen : List Char :=
  ['E', 'x', 'p', 'e', 'c', 't', 'e', 'd', ' ', Char.ofNat 39, ')', Char.ofNat 39]

/-- Error message of the argument-list loop of `ParseIdentifierExpr`,
`"Expected ')' or ',' in argument list"`. -/
def errExpectedArgList : List Char :=
  ['E', 'x', 'p', 'e', 'c', 't', 'e', 'd', ' ', Char.ofNat 39, ')', Char.ofNat 39,
   ' ', 'o', 'r', ' ', Char.ofNat 39, ',', Char.ofNat 39,
   ' ', 'i', 'n', ' ', 'a', 'r', 'g', 'u', 'm', 'e', 'n', 't', ' ', 'l', 'i', 's', 't']

/-- Error message of `ParsePrimary`, `"Unknown Token! Expected an expression"`. -/
def errUnknownToken : List Char :=
  "Unknown Token! Expected an expression".toList

/-- Fuel-exhaustion marker of the embedding; never produced when the fuel is
at least the recursion depth of the source on the same input. -/
def errNoFuel : List Char :=
  "out of fuel".toList

mutual

/-- `ParseNumberExpr`: build a `NumberExprAST` from `NumVal` (carried by the
number token `v`) and advance. -/
def ParseNumberExpr (v : Rat) (st : ParserState) : (Except (List Char) Expr) × ParserState :=
  (Except.ok (Expr.number v), getNextToken st)

/-- `ParseParenExpr`: advance past `(`, parse the inner expression, require
and consume `)`, and return the inner node unchanged. -/
def ParseParenExpr : Nat → ParserState → (Except (List Char) Expr) × ParserState
  | 0, st => (Except.error errNoFuel, st)
  | fuel + 1, st =>
    match ParseExpression fuel (getNextToken st) with
    | (Except.error e, st2) => (Except.error e, st2)
    | (Except.ok v, st2) =>
      if st2.cur ≠ Tok.op ')' then (Except.error errExpectedRParen, st2)
      else (Except.ok v, getNextToken st2)

/-- `ParseIdentifierExpr`: after an identifier (whose `IdentifierStr` text
is `idName`), either a plain `VariableExprAST`, or a call whose arguments
are collected by `ParseCallArgs`. -/
def ParseIdentifierExpr : Nat → List Char → ParserState → (Except (List Char) Expr) × ParserState
  | 0, _, st => (Except.error errNoFuel, st)
  | fuel + 1, idName, st =>
    let st1 := getNextToken st
    if st1.cur ≠ Tok.op '(' then (Except.ok (Expr.var idName), st1)
    else
      let st2 := getNextToken st1
      if st2.cur = Tok.op ')' then (Except.ok (Expr.call idName []), getNextToken st2)
      else
        match ParseCallArgs fuel [] st2 with
        | (Except.error e, st3) => (Except.error e, st3)
        | (Except.ok args, st3) => (Except.ok (Expr.call idName args), getNextToken st3)

/-- The `while(true)` argument loop inside `ParseIdentifierExpr`: parse one
expression, append it, stop at `)`, continue past `,`, otherwise report
`"Expected ')' or ',' in argument list"`. Returns the collected arguments
and the state still positioned on the closing `)`. -/
def ParseCallArgs : Nat → List Expr → ParserState → (Except (List Char) (List Expr)) × ParserState
  | 0, _, st => (Except.error errNoFuel, st)
  | fuel + 1, args, st =>
    match ParseExpression fuel st with
    | (Except.error e, st2) => (Except.error e, st2)
    | (Except.ok arg, st2) =>
      if st2.cur = Tok.op ')' then (Except.ok (args ++ [arg]), st2)
      else if st2.cur ≠ Tok.op ',' then (Except.error errExpectedArgList, st2)
      else ParseCallArgs fuel (args ++ [arg]) (getNextToken st2)

/-- `ParsePrimary`: dispatch on `CurTok`. -/
def ParsePrimary : Nat → ParserState → (Except (List Char) Expr) × ParserState
  | 0, st => (Except.error errNoFuel, st)
  | fuel + 1, st =>
    match st.cur with
    | Tok.identifier s => ParseIdentifierExpr fuel s st
    | Tok.number v => ParseNumberExpr v st
    | Tok.op c =>
      if c = '(' then ParseParenExpr fuel st
      else (Except.error errUnknownToken, st)
    | _ => (Except.error errUnknownToken, st)

/-- `ParseExpression`: one primary, then the binary-operator loop with
minimum precedence `0`. -/
def ParseExpression : Nat → ParserState → (Except (List Char) Expr) × ParserState
  | 0, st => (Except.error errNoFuel, st)
  | fuel + 1, st =>
    match ParsePrimary fuel st with
    | (Except.error e, st2) => (Except.error e, st2)
    | (Except.ok lhs, st2) => ParseBinOpRHS fuel 0 lhs st2

/-- `ParseBinOpRHS`: the precedence-climbing loop exactly as in the source,
including its unfinished higher-precedence branch — `NextPrec` is computed
(with its `operator[]` side effect on the map) and then ignored, so every
consumed operator merges left-associatively. -/
def ParseBinOpRHS : Nat → Int → Expr → ParserState → (Except (List Char) Expr) × ParserState
  | 0, _, _, st => (Except.error errNoFuel, st)
  | fuel + 1, exprPrec, lhs, st =>
    match GetTokPrecedence st with
    | (tokPrec, st1) =>
      if tokPrec < exprPrec then (Except.ok lhs, st1)
      else
        let binOp := st1.cur
        let st2 := getNextToken st1
        match ParsePrimary fuel st2 with
        | (Except.error e, st3) => (Except.error e, st3)
        | (Except.ok rhs, st3) =>
          match GetTokPrecedence st3 with
          | (_, st4) =>
            ParseBinOpRHS fuel exprPrec (Expr.binary (tokChar binOp) lhs rhs) st4

end

/-- Run `ParseExpression` on a token stream the way the driver would: prime
`CurTok` with the first token, start from the freshly initialized
`BinopPrecedence`, and give the parser ample fuel for the stream. -/
def ParseTokens (ts : List Tok) : (Except (List Char) Expr) × ParserState :=
  ParseExpression (4 * ts.length + 16) ⟨ts.headD Tok.eof, ts.tail, BinopPrecedenceInit⟩

/-- Whole pipeline on raw characters: lex, then parse one expression. -/
def parseInput (cs : List Char) : (Except (List Char) Expr) × ParserState :=
  ParseTokens (tokenize cs)

theorem skipWS_not_space (lc : Option Char) (inp : List Char)
    (h : optIs isspaceC lc = false) : skipWS lc inp = (lc, inp) := by
  unfold skipWS
  simp [h]

theorem skipWS_length (lc : Option Char) (inp : List Char) :
    (skipWS lc inp).2.length ≤ inp.length := by
  induction inp generalizing lc with
  | nil =>
    unfold skipWS
    split <;> simp
  | cons c cs ih =>
    unfold skipWS
    split
    · exact Nat.le_trans (ih (some c)) (Nat.le_succ _)
    · simp

theorem skipComment_clean (body : List Char)
    (h : ∀ c ∈ body, c ≠ '\n' ∧ c ≠ '\r') :
    skipComment body = (none, []) := by
  induction body with
  | nil => rfl
  | cons c cs ih =>
    have hc := h c (by simp)
    unfold skipComment
    rw [if_neg (by simp [hc.1, hc.2])]
    exact ih fun d hd => h d (by simp [hd])

theorem skipComment_terminator (t : Char) (body rest : List Char)
    (ht : t = '\n' ∨ t = '\r') (h : ∀ c ∈ body, c ≠ '\n' ∧ c ≠ '\r') :
    skipComment (body ++ t :: rest) = (some t, rest) := by
  induction body with
  | nil =>
    unfold skipComment
    simp only [List.nil_append]
    rw [if_pos ht]
  | cons c cs ih =>
    have hc := h c (by simp)
    unfold skipComment
    simp only [List.cons_append]
    rw [if_neg (by simp [hc.1, hc.2])]
    exact ih fun d hd => h d (by simp [hd])

theorem skipComment_some_length (inp : List Char) (c : Char) (inp2 : List Char)
    (h : skipComment inp = (some c, inp2)) : inp2.length < inp.length := by
  induction inp generalizing inp2 with
  | nil =>
    unfold skipComment at h
    simp at h
  | cons d ds ih =>
    unfold skipComment at h
    by_cases hd : d = '\n' ∨ d = '\r'
    · rw [if_pos hd] at h
      cases h
      simp
    · rw [if_neg hd] at h
      exact Nat.lt_succ_of_lt (ih inp2 h)

theorem gettokStep_congr (r r2 : LexState → Tok × LexState) (st : LexState)
    (h : ∀ st2 : LexState, st2.input.length < st.input.length → r st2 = r2 st2) :
    gettokStep r st = gettokStep r2 st := by
  unfold gettokStep
  rcases hws : skipWS st.lastChar st.input with ⟨lc, inp⟩
  have hle : inp.length ≤ st.input.length := by
    have h2 := skipWS_length st.lastChar st.input
    rw [hws] at h2
    exact h2
  cases lc with
  | none => rfl
  | some c =>
    by_cases ha : isalphaC c = true
    · simp [ha]
    · by_cases hn : isNumChar c = true
      · simp [ha, hn]
      · by_cases hc : c = '#'
        · simp only [ha, hn, hc, if_false, if_true, Bool.false_eq_true]
          rcases hsc : skipComment inp with ⟨lc2, inp2⟩
          cases lc2 with
          | none => rfl
          | some c2 =>
            exact h _ (Nat.lt_of_lt_of_le (skipComment_some_length inp c2 inp2 hsc) hle)
        · simp [ha, hn, hc]

theorem gettokF_fuel_irrelevant (f : Nat) : ∀ (g : Nat) (st : LexState),
    st.input.length < f → st.input.length < g → gettokF f st = gettokF g st := by
  induction f with
  | zero => intro g st h1; omega
  | succ f ih =>
    intro g st h1 h2
    cases g with
    | zero => omega
    | succ g =>
      show gettokStep (gettokF f) st = gettokStep (gettokF g) st
      apply gettokStep_congr
      intro st2 hlt
      exact ih g st2 (by omega) (by omega)

theorem scanNum_spec (inp : List Char) : ∀ (acc : List Char) (c : Char),
    scanNum acc c inp = (acc ++ c :: inp.takeWhile isNumChar,
      (inp.dropWhile isNumChar).head?, (inp.dropWhile isNumChar).tail) := by
  induction inp with
  | nil => intro acc c; simp [scanNum]
  | cons d ds ih =>
    intro acc c
    show (if isNumChar d = true then scanNum (acc ++ [c]) d ds
      else (acc ++ [c], some d, ds)) = _
    by_cases hd : isNumChar d = true
    · rw [if_pos hd, ih]
      simp [List.takeWhile_cons, List.dropWhile_cons, hd]
    · rw [if_neg hd]
      simp only [Bool.not_eq_true] at hd
      simp [List.takeWhile_cons, List.dropWhile_cons, hd]

/-- The spec reads the table as never mutated; the code can insert defaulted
entries. This relation captures what actually stays fixed: every existing
entry survives untouched, and anything new carries the defaulted value `0`. -/
def precPreserved (m m2 : PrecMap) : Prop :=
  (∀ k v, List.lookup k m = some v → List.lookup k m2 = some v) ∧
  (∀ k v, List.lookup k m2 = some v → List.lookup k m = some v ∨ v = 0)

theorem precPreserved_refl (m : PrecMap) : precPreserved m m :=
  ⟨fun _ _ h => h, fun _ _ h => Or.inl h⟩

theorem precPreserved_trans {a b c : PrecMap}
    (h1 : precPreserved a b) (h2 : precPreserved b c) : precPreserved a c := by
  refine ⟨fun k v h => h2.1 k v (h1.1 k v h), fun k v h => ?_⟩
  rcases h2.2 k v h with h3 | h3
  · exact h1.2 k v h3
  · exact Or.inr h3

theorem lookup_append_single (a k : Char) (v : Int) (m : PrecMap) :
    List.lookup a (m ++ [(k, v)]) =
      match List.lookup a m with
      | some w => some w
      | none => if a == k then some v else none := by
  induction m with
  | nil =>
    by_cases h : a = k
    · simp [List.lookup, h]
    · have h2 : (a == k) = false := by simp [h]
      simp [List.lookup, h, h2]
  | cons p ps ih =>
    rcases p with ⟨k2, v2⟩
    by_cases h : a == k2
    · simp [List.lookup, h]
    · simp only [Bool.not_eq_true] at h
      simp [List.lookup, h, ih]

theorem mapIndex_preserves (m : PrecMap) (k : Char) :
    precPreserved m (mapIndex m k).2 := by
  unfold mapIndex
  rcases h : List.lookup k m with _ | v
  · refine ⟨fun a w ha => ?_, fun a w ha => ?_⟩
    · rw [lookup_append_single]
      simp [ha]
    · rw [lookup_append_single] at ha
      rcases h2 : List.lookup a m with _ | w2
      · rw [h2] at ha
        by_cases h3 : a == k
        · rw [if_pos h3] at ha
          cases ha
          exact Or.inr rfl
        · simp only [Bool.not_eq_true] at h3
          rw [if_neg (by simp [h3])] at ha
          cases ha
      · rw [h2] at ha
        have hw : w2 = w := by simpa using ha
        exact Or.inl (congrArg Option.some hw)
  · exact precPreserved_refl m

theorem GetTokPrecedence_preserves (st : ParserState) :
    precPreserved st.prec (GetTokPrecedence st).2.prec := by
  unfold GetTokPrecedence
  by_cases h : tokIsAscii st.cur = true
  · by_cases h3 : (mapIndex st.prec (tokChar st.cur)).1 ≤ 0 <;>
      · simp only [h, if_true, h3, if_pos, if_neg, if_false]
        exact mapIndex_preserves st.prec (tokChar st.cur)
  · rw [if_neg (by simp [h])]
    exact precPreserved_refl st.prec

theorem GetTokPrecedence_val_invariant (m m2 : PrecMap) (h : precPreserved m m2)
    (cur : Tok) (r r2 : List Tok) :
    (GetTokPrecedence ⟨cur, r2, m2⟩).1 = (GetTokPrecedence ⟨cur, r, m⟩).1 := by
  unfold GetTokPrecedence
  by_cases ha : tokIsAscii cur = true
  · simp only [ha, if_pos]
    unfold mapIndex
    rcases h1 : List.lookup (tokChar cur) m with _ | v
    · rcases h2 : List.lookup (tokChar cur) m2 with _ | w
      · simp
      · rcases h.2 _ _ h2 with h3 | h3
        · rw [h3] at h1
          cases h1
        · subst h3
          simp
    · rw [h.1 _ _ h1]
      by_cases h2 : v ≤ 0 <;> simp [h2]
  · simp only [Bool.not_eq_true] at ha
    simp [ha]

theorem getNextToken_prec (st : ParserState) : (getNextToken st).prec = st.prec := rfl


theorem parse_prec_preserved (fuel : Nat) :
    (∀ st, precPreserved st.prec (ParsePrimary fuel st).2.prec) ∧
    (∀ st, precPreserved st.prec (ParseExpression fuel st).2.prec) ∧
    (∀ st, precPreserved st.prec (ParseParenExpr fuel st).2.prec) ∧
    (∀ idName st, precPreserved st.prec (ParseIdentifierExpr fuel idName st).2.prec) ∧
    (∀ args st, precPreserved st.prec (ParseCallArgs fuel args st).2.prec) ∧
    (∀ p lhs st, precPreserved st.prec (ParseBinOpRHS fuel p lhs st).2.prec) := by
  induction fuel with
  | zero =>
    exact ⟨fun st => precPreserved_refl _, fun st => precPreserved_refl _,
      fun st => precPreserved_refl _, fun n st => precPreserved_refl _,
      fun a st => precPreserved_refl _, fun p l st => precPreserved_refl _⟩
  | succ fuel ih =>
    obtain ⟨ihP, ihE, ihParen, ihId, ihArgs, ihBin⟩ := ih
    have hprec : ∀ (st st2 : ParserState) (r : Except (List Char) Expr),
        ParseExpression fuel st = (r, st2) → precPreserved st.prec st2.prec := by
      intro st st2 r h
      have h2 := ihE st
      rw [h] at h2
      exact h2
    have hParen : ∀ st, precPreserved st.prec (ParseParenExpr (fuel + 1) st).2.prec := by
      intro st
      simp only [ParseParenExpr]
      split
      · rename_i e st2 heq
        exact hprec (getNextToken st) st2 _ heq
      · rename_i v st2 heq
        split
        · exact hprec (getNextToken st) st2 _ heq
        · exact hprec (getNextToken st) st2 _ heq
    have hId : ∀ idName st,
        precPreserved st.prec (ParseIdentifierExpr (fuel + 1) idName st).2.prec := by
      intro idName st
      simp only [ParseIdentifierExpr]
      split
      · exact precPreserved_refl _
      · split
        · exact precPreserved_refl _
        · split
          · rename_i e st3 heq
            have h4 := ihArgs [] (getNextToken (getNextToken st))
            rw [heq] at h4
            exact h4
          · rename_i args2 st3 heq
            have h4 := ihArgs [] (getNextToken (getNextToken st))
            rw [heq] at h4
            exact h4
    have hArgs : ∀ args st,
        precPreserved st.prec (ParseCallArgs (fuel + 1) args st).2.prec := by
      intro args st
      simp only [ParseCallArgs]
      split
      · rename_i e st2 heq
        exact hprec st st2 _ heq
      · rename_i arg st2 heq
        split
        · exact hprec st st2 _ heq
        · split
          · exact hprec st st2 _ heq
          · exact precPreserved_trans (hprec st st2 _ heq)
              (ihArgs (args ++ [arg]) (getNextToken st2))
    have hBin : ∀ p lhs st,
        precPreserved st.prec (ParseBinOpRHS (fuel + 1) p lhs st).2.prec := by
      intro p lhs st
      simp only [ParseBinOpRHS]
      split
      · exact GetTokPrecedence_preserves st
      · split
        · rename_i e st3 heq
          have h4 := ihP (getNextToken (GetTokPrecedence st).2)
          rw [heq] at h4
          exact precPreserved_trans (GetTokPrecedence_preserves st) h4
        · rename_i rhs st3 heq
          have h4 := ihP (getNextToken (GetTokPrecedence st).2)
          rw [heq] at h4
          exact precPreserved_trans (GetTokPrecedence_preserves st)
            (precPreserved_trans h4
              (precPreserved_trans (GetTokPrecedence_preserves st3)
                (ihBin p _ (GetTokPrecedence st3).2)))
    have hPrim : ∀ st, precPreserved st.prec (ParsePrimary (fuel + 1) st).2.prec := by
      intro st
      simp only [ParsePrimary]
      split
      · exact ihId _ st
      · exact precPreserved_refl _
      · split
        · exact ihParen st
        · exact precPreserved_refl _
      · exact precPreserved_refl _
    have hExpr : ∀ st, precPreserved st.prec (ParseExpression (fuel + 1) st).2.prec := by
      intro st
      simp only [ParseExpression]
      split
      · rename_i e st2 heq
        have h2 := ihP st
        rw [heq] at h2
        exact h2
      · rename_i lhs st2 heq
        have h2 := ihP st
        rw [heq] at h2
        exact precPreserved_trans h2 (ihBin 0 lhs st2)
    exact ⟨hPrim, hExpr, hParen, hId, hArgs, hBin⟩

theorem ParseBinOpRHS_size_le (fuel : Nat) :
    ∀ p lhs st e st2, ParseBinOpRHS fuel p lhs st = (Except.ok e, st2) →
      lhs.size ≤ e.size := by
  induction fuel with
  | zero =>
    intro p lhs st e st2 h
    simp [ParseBinOpRHS] at h
  | succ fuel ih =>
    intro p lhs st e st2 h
    simp only [ParseBinOpRHS] at h
    split at h
    · have h2 : lhs = e := by
        have h3 := congrArg Prod.fst h
        simpa using h3
      rw [h2]
    · split at h
      · simp at h
      · rename_i rhs st3 heq
        have h4 := ih p _ _ _ _ h
        refine Nat.le_trans ?_ h4
        simp [Expr.size]
        omega

theorem skipWS_pound (inp : List Char) : skipWS (some '#') inp = (some '#', inp) :=
  skipWS_not_space _ _ (by decide)

theorem isNumChar_not_alpha (c : Char) (h : isNumChar c = true) : isalphaC c = false := by
  simp only [isNumChar, isdigitC, decide_eq_true_eq] at h
  rcases h with h | h
  · simp only [isalphaC, decide_eq_false_iff_not]
    rintro (⟨ha, -⟩ | ⟨ha, -⟩)
    · exact absurd (le_trans ha h.2) (by decide)
    · exact absurd (le_trans ha h.2) (by decide)
  · subst h
    decide

/-- C9: when a comment runs to end-of-input without meeting a newline or a
carriage return, `gettok` reports end-of-input (and no other token): the
`if (LastChar != EOF) return gettok();` guard skips the reclassification and
control falls through to the `EOF` case. -/
theorem claim9_comment_to_eof (body ids : List Char)
    (h : ∀ c ∈ body, c ≠ '\n' ∧ c ≠ '\r') :
    gettok ⟨some '#', body, ids⟩ = (Tok.eof, ⟨none, [], ids⟩) := by
  show gettokStep (gettokF body.length) ⟨some '#', body, ids⟩ = _
  unfold gettokStep
  rw [show skipWS (⟨some '#', body, ids⟩ : LexState).lastChar
      (⟨some '#', body, ids⟩ : LexState).input = (some '#', body) from skipWS_pound body]
  have h1 : isalphaC '#' = false := by decide
  have h2 : isNumChar '#' = false := by decide
  simp [h1, h2, skipComment_clean body h]

/-- Witness for C9 at the concrete input `"# trailing"` with no newline. -/
theorem claim9_witness :
    gettok ⟨some '#', " trailing".toList, []⟩ = (Tok.eof, ⟨none, [], []⟩) :=
  claim9_comment_to_eof " trailing".toList [] (by decide)

/-- C10: a token that starts (after whitespace skipping) with a digit or a
dot is scanned as a number: the maximal run of digits and dots is consumed
and converted by `strtod`, and a lone `"."` becomes the number token `0`,
never an `op` token for the dot. -/
theorem claim10_dot_starts_number :
    (∀ (lc : Option Char) (inp inp2 ids : List Char) (c : Char),
        skipWS lc inp = (some c, inp2) → isNumChar c = true →
        gettok ⟨lc, inp, ids⟩ =
          (Tok.number (strtodM (c :: inp2.takeWhile isNumChar)),
            ⟨(inp2.dropWhile isNumChar).head?, (inp2.dropWhile isNumChar).tail, ids⟩)) ∧
    tokenize ".".toList = [Tok.number 0, Tok.eof] := by
  constructor
  · intro lc inp inp2 ids c hws hn
    show gettokStep (gettokF inp.length) ⟨lc, inp, ids⟩ = _
    unfold gettokStep
    rw [show skipWS (⟨lc, inp, ids⟩ : LexState).lastChar
        (⟨lc, inp, ids⟩ : LexState).input = (some c, inp2) from hws]
    simp [isNumChar_not_alpha c hn, hn, scanNum_spec]
  · decide

/-- Witness for C10 at the concrete input `"7.5x"` (scan stops at `x`). -/
theorem claim10_witness :
    gettok ⟨some ' ', "7.5x".toList, []⟩ =
      (Tok.number (strtodM ('7' :: ".5x".toList.takeWhile isNumChar)),
        ⟨(".5x".toList.dropWhile isNumChar).head?, (".5x".toList.dropWhile isNumChar).tail, []⟩) :=
  claim10_dot_starts_number.1 (some ' ') "7.5x".toList ".5x".toList [] '7' (by decide) (by decide)

/-- C3 is a code bug: the identifier rule never clears `IdentifierStr` and
never stores the first alphabetic character, so a fresh lexer turns `"def"`
into an identifier token carrying `"ef"` (instead of the `def` keyword
token), and the text carried for an identifier depends on previously lexed
tokens (`"ab cd"` lexes as identifiers `"b"` and then `"bd"`). -/
theorem claim3_code_behavior :
    gettok ⟨some ' ', "def".toList, []⟩ =
      (Tok.identifier "ef".toList, ⟨none, [], "ef".toList⟩) ∧
    tokenize "ab cd".toList =
      [Tok.identifier "b".toList, Tok.identifier "bd".toList, Tok.eof] :=
  ⟨rfl, rfl⟩

/-- C8: comments are transparent. In any lexer state that reaches `#`, a
comment body followed by its terminating newline or carriage return behaves
exactly like that terminator alone; in particular
`"1 # ignore me\n+2"` produces the same token stream (at every fuel) and
the same parse as `"1+2"`. -/
theorem claim8_comments :
    (∀ (t : Char) (body rest ids : List Char), (t = '\n' ∨ t = '\r') →
        (∀ c ∈ body, c ≠ '\n' ∧ c ≠ '\r') →
        gettok ⟨some '#', body ++ t :: rest, ids⟩ = gettok ⟨some t, rest, ids⟩) ∧
    (∀ fuel, tokenizeF fuel ⟨some ' ', "1 # ignore me\n+2".toList, []⟩ =
        tokenizeF fuel ⟨some ' ', "1+2".toList, []⟩) ∧
    (parseInput "1 # ignore me\n+2".toList).1 = (parseInput "1+2".toList).1 := by
  refine ⟨?_, ?_, rfl⟩
  · intro t body rest ids ht h
    show gettokStep (gettokF (body ++ t :: rest).length) ⟨some '#', body ++ t :: rest, ids⟩ = _
    unfold gettokStep
    rw [show skipWS (⟨some '#', body ++ t :: rest, ids⟩ : LexState).lastChar
        (⟨some '#', body ++ t :: rest, ids⟩ : LexState).input =
        (some '#', body ++ t :: rest) from skipWS_pound _]
    have h1 : isalphaC '#' = false := by decide
    have h2 : isNumChar '#' = false := by decide
    simp only [h1, h2, Bool.false_eq_true, if_false, if_true,
      skipComment_terminator t body rest ht h]
    show gettokF (body ++ t :: rest).length ⟨some t, rest, ids⟩ = gettok ⟨some t, rest, ids⟩
    refine gettokF_fuel_irrelevant _ _ _ ?_ ?_
    · simp
      omega
    · simp
  · intro fuel
    cases fuel with
    | zero => rfl
    | succ g =>
      cases g with
      | zero => rfl
      | succ g2 => rfl

/-- Witness for C8 at a concrete comment insertion. -/
theorem claim8_witness :
    gettok ⟨some '#', (" x".toList ++ '\n' :: "7".toList), []⟩ =
      gettok ⟨some '\n', "7".toList, []⟩ :=
  claim8_comments.1 '\n' " x".toList "7".toList [] (Or.inl rfl) (by decide)

/-- C1 names the behavior the spec requires, but the source contradicts it:
the strictly-higher-next-precedence branch of `ParseBinOpRHS` is an empty
stub (marked `// Unfinished` in the source), so no recursive climb with
`minPrecedence = currentOperatorPrecedence + 1` happens and `"1+2*3"`
parses left-chained as `BinaryExpr('*', BinaryExpr('+', 1, 2), 3)` instead
of the claimed `BinaryExpr('+', 1, BinaryExpr('*', 2, 3))`. This theorem
evaluates the code at the failing input. -/
theorem claim1_code_behavior :
    (parseInput "1+2*3".toList).1 =
      Except.ok (Expr.binary '*' (Expr.binary '+' (Expr.number 1) (Expr.number 2))
        (Expr.number 3)) := rfl

/-- C4: equal-precedence chains fold left-associatively; `"1-2-3"` parses
as `BinaryExpr('-', BinaryExpr('-', 1, 2), 3)`. -/
theorem claim4_left_assoc :
    (parseInput "1-2-3".toList).1 =
      Except.ok (Expr.binary '-' (Expr.binary '-' (Expr.number 1) (Expr.number 2))
        (Expr.number 3)) := rfl

/-- C5: over the initialized table the precedence lookup yields `10`, `20`,
`30`, `40` for `<`, `+`, `-`, `*`, and the sentinel `-1` for every other
character token and every non-character token (over any table); and the
binary-operator loop returns its left-hand side unchanged, consuming no
token, exactly when the lookup result is below the minimum-precedence
argument. -/
theorem claim5_precedence_table_and_stop :
    ((∀ rest, (GetTokPrecedence ⟨Tok.op '<', rest, BinopPrecedenceInit⟩).1 = 10) ∧
     (∀ rest, (GetTokPrecedence ⟨Tok.op '+', rest, BinopPrecedenceInit⟩).1 = 20) ∧
     (∀ rest, (GetTokPrecedence ⟨Tok.op '-', rest, BinopPrecedenceInit⟩).1 = 30) ∧
     (∀ rest, (GetTokPrecedence ⟨Tok.op '*', rest, BinopPrecedenceInit⟩).1 = 40)) ∧
    (∀ (c : Char) (rest : List Tok), c ≠ '<' → c ≠ '+' → c ≠ '-' → c ≠ '*' →
        (GetTokPrecedence ⟨Tok.op c, rest, BinopPrecedenceInit⟩).1 = -1) ∧
    (∀ (t : Tok) (rest : List Tok) (m : PrecMap), (∀ c, t ≠ Tok.op c) →
        (GetTokPrecedence ⟨t, rest, m⟩).1 = -1) ∧
    (∀ (fuel : Nat) (p : Int) (lhs : Expr) (st : ParserState),
        (GetTokPrecedence st).1 < p →
        ParseBinOpRHS (fuel + 1) p lhs st = (Except.ok lhs, (GetTokPrecedence st).2)) ∧
    (∀ (fuel : Nat) (p : Int) (lhs : Expr) (st st2 : ParserState),
        ¬ (GetTokPrecedence st).1 < p →
        ParseBinOpRHS (fuel + 1) p lhs st ≠ (Except.ok lhs, st2)) := by
  refine ⟨⟨fun r => rfl, fun r => rfl, fun r => rfl, fun r => rfl⟩, ?_, ?_, ?_, ?_⟩
  · intro c rest h1 h2 h3 h4
    have e1 : (c == '<') = false := by simp [h1]
    have e2 : (c == '+') = false := by simp [h2]
    have e3 : (c == '-') = false := by simp [h3]
    have e4 : (c == '*') = false := by simp [h4]
    by_cases hA : tokIsAscii (Tok.op c) = true
    · simp [GetTokPrecedence, hA, mapIndex, BinopPrecedenceInit, List.lookup, tokChar,
        e1, e2, e3, e4]
    · simp [GetTokPrecedence, hA]
  · intro t rest m h
    cases t with
    | op c => exact absurd rfl (h c)
    | eof => rfl
    | defKw => rfl
    | externKw => rfl
    | identifier s => rfl
    | number v => rfl
  · intro fuel p lhs st h
    simp only [ParseBinOpRHS]
    rw [if_pos h]
  · intro fuel p lhs st st2 h hEq
    simp only [ParseBinOpRHS] at hEq
    rw [if_neg h] at hEq
    split at hEq
    · simp at hEq
    · have h4 := ParseBinOpRHS_size_le fuel p _ _ _ _ hEq
      simp [Expr.size] at h4
      omega

/-- Witness for C5: the loop stops at once on `+` (precedence `20`) when the
minimum is `50`. -/
theorem claim5_witness :
    ParseBinOpRHS 4 50 (Expr.number 1) ⟨Tok.op '+', [], BinopPrecedenceInit⟩ =
      (Except.ok (Expr.number 1), ⟨Tok.op '+', [], BinopPrecedenceInit⟩) :=
  claim5_precedence_table_and_stop.2.2.2.1 3 50 (Expr.number 1)
    ⟨Tok.op '+', [], BinopPrecedenceInit⟩ (by decide)

/-- C6: `ParseParenExpr` reports `"Expected ')'"` exactly when the inner
expression parses but the next token is not `)`; on success it returns the
inner node itself (no parenthesis node). Concretely, `"(1+2"` fails with
that message (and, the result being an error, no tree at all), while
`"(1+2)*3"` parses to `BinaryExpr('*', BinaryExpr('+', 1, 2), 3)`. -/
theorem claim6_paren_expr :
    (∀ (fuel : Nat) (st : ParserState) (e : Expr) (st2 : ParserState),
        ParseExpression fuel (getNextToken st) = (Except.ok e, st2) →
        st2.cur ≠ Tok.op ')' →
        ParseParenExpr (fuel + 1) st = (Except.error errExpectedRParen, st2)) ∧
    (∀ (fuel : Nat) (st : ParserState) (e : Expr) (st2 : ParserState),
        ParseExpression fuel (getNextToken st) = (Except.ok e, st2) →
        st2.cur = Tok.op ')' →
        ParseParenExpr (fuel + 1) st = (Except.ok e, getNextToken st2)) ∧
    (parseInput "(1+2".toList).1 = Except.error errExpectedRParen ∧
    (parseInput "(1+2)*3".toList).1 =
      Except.ok (Expr.binary '*' (Expr.binary '+' (Expr.number 1) (Expr.number 2))
        (Expr.number 3)) := by
  refine ⟨?_, ?_, rfl, rfl⟩
  · intro fuel st e st2 h h2
    simp only [ParseParenExpr]
    rw [h]
    simp [h2]
  · intro fuel st e st2 h h2
    simp only [ParseParenExpr]
    rw [h]
    simp [h2]

/-- Witness for C6: after `( 1` with end-of-input instead of `)`, the error
is exactly `"Expected ')'"`. -/
theorem claim6_witness :
    ParseParenExpr 6 ⟨Tok.op '(', [Tok.number 1], BinopPrecedenceInit⟩ =
      (Except.error errExpectedRParen, ⟨Tok.eof, [], BinopPrecedenceInit⟩) :=
  claim6_paren_expr.1 5 ⟨Tok.op '(', [Tok.number 1], BinopPrecedenceInit⟩
    (Expr.number 1) ⟨Tok.eof, [], BinopPrecedenceInit⟩ rfl (by decide)

/-- The argument-list error message exactly as claim C7 words it (lowercase
initial `e`), for comparison with the message the code produces. -/
def claimedArgListMsg : List Char :=
  ['e', 'x', 'p', 'e', 'c', 't', 'e', 'd', ' ', Char.ofNat 39, ')', Char.ofNat 39,
   ' ', 'o', 'r', ' ', Char.ofNat 39, ',', Char.ofNat 39,
   ' ', 'i', 'n', ' ', 'a', 'r', 'g', 'u', 'm', 'e', 'n', 't', ' ', 'l', 'i', 's', 't']

/-- C7 counterexample: on the tokens of `foo(1 2)` the code fails with
`"Expected ')' or ',' in argument list"` (capital `E`), which differs from
the message the claim states. -/
theorem claim7_counterexample :
    (ParseTokens [Tok.identifier "foo".toList, Tok.op '(', Tok.number 1,
        Tok.number 2, Tok.op ')']).1 = Except.error errExpectedArgList ∧
    errExpectedArgList ≠ claimedArgListMsg :=
  ⟨rfl, by decide⟩

/-- C7 as amended (message capitalized as in the source): a lone identifier
becomes a `VariableExpr`; a call collects its arguments in source order and
returns them on the closing `)`; and when the token after an argument is
neither `)` nor `,` the parse fails with
`"Expected ')' or ',' in argument list"`. -/
theorem claim7_identifier_and_call :
    (∀ (fuel : Nat) (idName : List Char) (st : ParserState),
        (getNextToken st).cur ≠ Tok.op '(' →
        ParseIdentifierExpr (fuel + 1) idName st =
          (Except.ok (Expr.var idName), getNextToken st)) ∧
    (∀ (fuel : Nat) (args : List Expr) (st : ParserState) (a : Expr) (st2 : ParserState),
        ParseExpression fuel st = (Except.ok a, st2) →
        st2.cur ≠ Tok.op ')' → st2.cur ≠ Tok.op ',' →
        ParseCallArgs (fuel + 1) args st = (Except.error errExpectedArgList, st2)) ∧
    (∀ (fuel : Nat) (args : List Expr) (st : ParserState) (a : Expr) (st2 : ParserState),
        ParseExpression fuel st = (Except.ok a, st2) →
        st2.cur = Tok.op ')' →
        ParseCallArgs (fuel + 1) args st = (Except.ok (args ++ [a]), st2)) ∧
    (ParseTokens [Tok.identifier "foo".toList, Tok.op '(', Tok.number 1, Tok.op ',',
        Tok.identifier "bar".toList, Tok.op '(', Tok.number 2, Tok.op ',', Tok.number 3,
        Tok.op ')', Tok.op ')']).1 =
      Except.ok (Expr.call "foo".toList
        [Expr.number 1, Expr.call "bar".toList [Expr.number 2, Expr.number 3]]) ∧
    (ParseTokens [Tok.identifier "foo".toList, Tok.op '(', Tok.number 1,
        Tok.number 2, Tok.op ')']).1 = Except.error errExpectedArgList := by
  refine ⟨?_, ?_, ?_, rfl, rfl⟩
  · intro fuel idName st h
    simp only [ParseIdentifierExpr]
    simp [h]
  · intro fuel args st a st2 h h2 h3
    simp only [ParseCallArgs]
    rw [h]
    simp [h2, h3]
  · intro fuel args st a st2 h h2
    simp only [ParseCallArgs]
    rw [h]
    simp [h2]

/-- Witness for C7: an identifier not followed by `(` becomes a variable
node. -/
theorem claim7_witness :
    ParseIdentifierExpr 1 "x".toList ⟨Tok.identifier "x".toList, [Tok.eof], BinopPrecedenceInit⟩ =
      (Except.ok (Expr.var "x".toList), ⟨Tok.eof, [], BinopPrecedenceInit⟩) :=
  claim7_identifier_and_call.1 0 "x".toList
    ⟨Tok.identifier "x".toList, [Tok.eof], BinopPrecedenceInit⟩ (by decide)

/-- C2 counterexample: the lookup on the unmapped token `/` mutates the
table — `std::map::operator[]` value-initializes a `('/', 0)` entry — so the
map after one `GetTokPrecedence` call differs from the initialized map. -/
theorem claim2_counterexample :
    (GetTokPrecedence ⟨Tok.op '/', [], BinopPrecedenceInit⟩).2.prec ≠ BinopPrecedenceInit := by
  decide

/-- C2 as amended: lookups and parse operations never remove or modify an
existing entry of `BinopPrecedence` and never change the result of any
precedence lookup; the only mutation is the insertion of defaulted `0`
entries for unmapped ASCII tokens, which every lookup reports as `-1`
either way. -/
theorem claim2_prec_table_preserved :
    (∀ st, precPreserved st.prec (GetTokPrecedence st).2.prec) ∧
    (∀ m m2, precPreserved m m2 → ∀ (cur : Tok) (r r2 : List Tok),
        (GetTokPrecedence ⟨cur, r2, m2⟩).1 = (GetTokPrecedence ⟨cur, r, m⟩).1) ∧
    (∀ fuel st, precPreserved st.prec (ParseExpression fuel st).2.prec) ∧
    (∀ fuel st, precPreserved st.prec (ParsePrimary fuel st).2.prec) ∧
    (∀ fuel st, precPreserved st.prec (ParseParenExpr fuel st).2.prec) ∧
    (∀ fuel idName st, precPreserved st.prec (ParseIdentifierExpr fuel idName st).2.prec) ∧
    (∀ fuel args st, precPreserved st.prec (ParseCallArgs fuel args st).2.prec) ∧
    (∀ fuel p lhs st, precPreserved st.prec (ParseBinOpRHS fuel p lhs st).2.prec) :=
  ⟨GetTokPrecedence_preserves, GetTokPrecedence_val_invariant,
   fun fuel => (parse_prec_preserved fuel).2.1,
   fun fuel => (parse_prec_preserved fuel).1,
   fun fuel => (parse_prec_preserved fuel).2.2.1,
   fun fuel => (parse_prec_preserved fuel).2.2.2.1,
   fun fuel => (parse_prec_preserved fuel).2.2.2.2.1,
   fun fuel => (parse_prec_preserved fuel).2.2.2.2.2⟩

/-- Witness for C2: after the mutating lookup on `/`, looking up `+` still
returns the same precedence as on the freshly initialized table. -/
theorem claim2_witness :
    (GetTokPrecedence ⟨Tok.op '+', [],
        (GetTokPrecedence ⟨Tok.op '/', [], BinopPrecedenceInit⟩).2.prec⟩).1 =
      (GetTokPrecedence ⟨Tok.op '+', [], BinopPrecedenceInit⟩).1 :=
  claim2_prec_table_preserved.2.1 BinopPrecedenceInit
    (GetTokPrecedence ⟨Tok.op '/', [], BinopPrecedenceInit⟩).2.prec
    (claim2_prec_table_preserved.1 ⟨Tok.op '/', [], BinopPrecedenceInit⟩)
    (Tok.op '+') [] []
